import Mathlib

/-!
Verification development for the pack3d packing engine
(src/src/packing/optimizer.worker.js and the PhysicsSolver it imports).

The JavaScript code is shallowly embedded over exact rationals (ℚ).
Numeric literals of the source (0.1, 0.5, 0.125, 1.1, ...) become the
corresponding rationals.  The two unbounded while loops of the source
(PhysicsSolver.dropBox and PackingWorker.binarySearchDimension) are
embedded as structurally recursive loops over an explicit iteration
counter; for dropBox the counter is the exact number of iterations the
source loop performs, and for the binary search it is an upper bound on
the iteration count, with the loop guard still tested at every step, so
the embedded functions agree with the source loops.

The sine based pseudo random stream frac(sin(seed+1)*10000) of
attemptPacking cannot be embedded exactly (transcendental floating point
function); it is abstracted as a stream parameter noise : ℕ → ℚ carried
in WorkerCtx, indexed by the value of the seed counter at the draw.  The
source draws the noise inside the Array.sort comparator, so for seed > 0
the resulting order additionally depends on the sort schedule of the JS
engine; the embedding assigns one draw per box in input order and sorts
stably, as the surrounding documentation describes.  Every theorem below
that concerns a seed > 0 ordering is proved for an arbitrary ordering of
the box list, so this modelling choice is not load bearing; at seed = 0
no draw happens and the embedding is exact.
-/

set_option maxRecDepth 4000

namespace Pack3d

/-- One box instance consumed by the engine: an identifier plus the three
canonical (unrotated) dimensions. -/
structure Box where
  id : ℕ
  width : ℚ
  height : ℚ
  depth : ℚ
  deriving DecidableEq, Repr

/-- A positioned box: a box bound to orientation dimensions and a center
position.  Mirrors the testBox / placedBox objects of the worker. -/
structure PlacedBox where
  id : ℕ
  width : ℚ
  height : ℚ
  depth : ℚ
  x : ℚ
  y : ℚ
  z : ℚ
  deriving DecidableEq, Repr

/-- A container size, axis aligned, centered at the origin in x and z,
floor at y = 0. -/
structure Container where
  width : ℚ
  height : ℚ
  depth : ℚ
  deriving DecidableEq, Repr

/-- A dimension triple, used for the up to six axis permutations of a
box (getUniqueOrientations). -/
structure Dims where
  width : ℚ
  height : ℚ
  depth : ℚ
  deriving DecidableEq, Repr

/-- A candidate position produced by generateCandidatePositions, already
tagged with the orientation dimensions used to generate it (the source
tags the same dimensions onto the candidate right after generation). -/
structure Candidate where
  x : ℚ
  y : ℚ
  z : ℚ
  skipGravity : Bool
  width : ℚ
  height : ℚ
  depth : ℚ
  deriving DecidableEq, Repr

/-- Per axis constraints: none models the JS null (axis free to be
minimized), some v a fixed axis value. -/
structure Constraints where
  width : Option ℚ
  height : Option ℚ
  depth : Option ℚ
  deriving DecidableEq, Repr

/-- The monteCarloConfig record of the worker. -/
structure MCConfig where
  searchAttempts : ℕ
  finalAttempts : ℕ
  useNoise : Bool
  deriving DecidableEq, Repr

/-- The per call state of the PackingWorker instance: this.mcConfig,
this.allowRotation, and the abstracted pseudo random stream. -/
structure WorkerCtx where
  mcConfig : MCConfig
  allowRotation : Bool
  noise : ℕ → ℚ

/-- The result object returned by PackingWorker.optimize (the
executionTime field, wall clock time, is not modelled). -/
structure OptimizeResult where
  success : Bool
  error : Option String
  container : Option Container
  placedBoxes : List PlacedBox

/-- Axis selector for container fields. -/
inductive Dim | width | height | depth
  deriving DecidableEq, Repr

/-- Read one axis of a container. -/
def Container.get (c : Container) : Dim → ℚ
  | Dim.width => c.width
  | Dim.height => c.height
  | Dim.depth => c.depth

/-- Write one axis of a container. -/
def Container.set (c : Container) : Dim → ℚ → Container
  | Dim.width, v => { c with width := v }
  | Dim.height, v => { c with height := v }
  | Dim.depth, v => { c with depth := v }

/-! ## PhysicsSolver -/

/-- PhysicsSolver.checkCollision: strict interior AABB overlap on all
three axes; touching faces do not collide. -/
def checkCollision (box1 box2 : PlacedBox) : Bool :=
  (decide (box1.x + box1.width / 2 > box2.x - box2.width / 2) &&
   decide (box1.x - box1.width / 2 < box2.x + box2.width / 2)) &&
  (decide (box1.y + box1.height / 2 > box2.y - box2.height / 2) &&
   decide (box1.y - box1.height / 2 < box2.y + box2.height / 2)) &&
  (decide (box1.z + box1.depth / 2 > box2.z - box2.depth / 2) &&
   decide (box1.z - box1.depth / 2 < box2.z + box2.depth / 2))

/-- PhysicsSolver.checkCollisionWithList. -/
def checkCollisionWithList (box : PlacedBox) (boxList : List PlacedBox) : Bool :=
  boxList.any (fun other => checkCollision box other)

/-- PhysicsSolver.isWithinContainer: all six faces inside
[-W/2, W/2] x [0, H] x [-D/2, D/2], inclusive. -/
def isWithinContainer (box : PlacedBox) (container : Container) : Bool :=
  decide (box.x - box.width / 2 ≥ -(container.width / 2)) &&
  decide (box.x + box.width / 2 ≤ container.width / 2) &&
  decide (box.y - box.height / 2 ≥ 0) &&
  decide (box.y + box.height / 2 ≤ container.height) &&
  decide (box.z - box.depth / 2 ≥ -(container.depth / 2)) &&
  decide (box.z + box.depth / 2 ≤ container.depth / 2)

/-- The body of the while loop of PhysicsSolver.dropBox, structurally
recursive over the remaining iteration count.  The guard testY > minY is
still tested at every step, and dropBox below passes the exact number of
iterations the source loop performs, so the two agree on all inputs. -/
def dropLoop (box : PlacedBox) (placedBoxes : List PlacedBox) (minY : ℚ) :
    ℕ → ℚ → ℚ
  | 0, _ => minY + 1/1000
  | fuel + 1, testY =>
    if testY > minY then
      if checkCollisionWithList { box with y := testY } placedBoxes then
        testY + 1/10
      else
        dropLoop box placedBoxes minY fuel (testY - 1/2)
    else
      minY + 1/1000

/-- PhysicsSolver.dropBox: drop from the current y in steps of 0.5 until
a collision with a placed box is found (return that y plus 0.1) or the
floor is reached (return height/2 plus 0.001).  The iteration counter
ceil((y - minY) * 2) is exactly the number of times the source loop
guard testY > minY holds. -/
def dropBox (box : PlacedBox) (placedBoxes : List PlacedBox)
    (_container : Container) : ℚ :=
  let minY : ℚ := box.height / 2
  dropLoop box placedBoxes minY (⌈(box.y - minY) * 2⌉.toNat) box.y

/-- The body of the support accumulation loop of
PhysicsSolver.calculateStability: when the placed box top face lies
within 0.5 of the candidate bottom face and the footprints strictly
overlap, add the overlap area to the accumulator. -/
def stabilityStep (box : PlacedBox) (acc : ℚ) (placedBox : PlacedBox) : ℚ :=
  let placedTopY := placedBox.y + placedBox.height / 2
  if |placedTopY - (box.y - box.height / 2)| < 1/2 then
    let overlapMinX := max (box.x - box.width / 2) (placedBox.x - placedBox.width / 2)
    let overlapMaxX := min (box.x + box.width / 2) (placedBox.x + placedBox.width / 2)
    let overlapMinZ := max (box.z - box.depth / 2) (placedBox.z - placedBox.depth / 2)
    let overlapMaxZ := min (box.z + box.depth / 2) (placedBox.z + placedBox.depth / 2)
    if overlapMaxX > overlapMinX ∧ overlapMaxZ > overlapMinZ then
      acc + (overlapMaxX - overlapMinX) * (overlapMaxZ - overlapMinZ)
    else acc
  else acc

/-- PhysicsSolver.calculateStability: 1 on the floor, otherwise the
supported footprint fraction, clamped to 1 and halved when below 0.5
(cantilever penalty). -/
def calculateStability (box : PlacedBox) (placedBoxes : List PlacedBox)
    (_container : Container) : ℚ :=
  if |box.y - box.height / 2| < 1/10 then
    1
  else
    let bottomArea := box.width * box.depth
    let supportedArea := placedBoxes.foldl (stabilityStep box) 0
    let stability := min (supportedArea / bottomArea) 1
    if stability < 1/2 then stability * (1/2) else stability

/-- The support contribution of one placed box to a candidate box: the
positive footprint overlap area in the x z plane, and 0 when the
footprints do not strictly overlap. -/
def supportOverlapArea (box p : PlacedBox) : ℚ :=
  if min (box.x + box.width / 2) (p.x + p.width / 2) >
       max (box.x - box.width / 2) (p.x - p.width / 2) ∧
     min (box.z + box.depth / 2) (p.z + p.depth / 2) >
       max (box.z - box.depth / 2) (p.z - p.depth / 2) then
    (min (box.x + box.width / 2) (p.x + p.width / 2) -
      max (box.x - box.width / 2) (p.x - p.width / 2)) *
    (min (box.z + box.depth / 2) (p.z + p.depth / 2) -
      max (box.z - box.depth / 2) (p.z - p.depth / 2))
  else 0

/-- The support filter of the stability score: placed boxes whose top
face lies within 0.5 of the candidate bottom face. -/
def supportsBox (box p : PlacedBox) : Bool :=
  decide (|p.y + p.height / 2 - (box.y - box.height / 2)| < 1/2)

/-- The box positioned at a test height, as inside the dropBox loop. -/
def collidesAt (box : PlacedBox) (placed : List PlacedBox) (y : ℚ) : Bool :=
  checkCollisionWithList { box with y := y } placed

/-- PhysicsSolver.isValidPlacement: within bounds, collision free, and,
when the bottom face is more than 0.1 above the floor, stable enough. -/
def isValidPlacement (box : PlacedBox) (placedBoxes : List PlacedBox)
    (container : Container) (minStability : ℚ) : Bool :=
  if ¬ isWithinContainer box container then false
  else if checkCollisionWithList box placedBoxes then false
  else if decide (box.y - box.height / 2 > 1/10) &&
          decide (calculateStability box placedBoxes container < minStability) then
    false
  else true

/-! ## PackingWorker: placement heuristic -/

/-- Append x to acc unless already present; used to deduplicate the six
axis permutations, keeping first occurrences in order (the source uses a
Set of dimension key strings). -/
def pushUnique (acc : List Dims) (d : Dims) : List Dims :=
  if d ∈ acc then acc else acc ++ [d]

/-- PackingWorker.getUniqueOrientations: the six axis permutations of
the box dimensions, deduplicated by value. -/
def getUniqueOrientations (box : Box) : List Dims :=
  let w := box.width
  let h := box.height
  let d := box.depth
  [⟨w, h, d⟩, ⟨w, d, h⟩, ⟨h, w, d⟩, ⟨h, d, w⟩, ⟨d, w, h⟩, ⟨d, h, w⟩].foldl
    pushUnique []

/-- The eleven candidates generated for one already placed box (in
source order: on top, four on top offsets, right, behind, four
corners).  The candidate carries the orientation dimensions, as the
source tags them onto each candidate right after generation. -/
def candidatesForPlaced (o : Dims) (p : PlacedBox) : List Candidate :=
  let topY := p.y + p.height / 2 + o.height / 2
  [⟨p.x, topY, p.z, true, o.width, o.height, o.depth⟩,
   ⟨p.x + (p.width - o.width) / 4, topY, p.z, true, o.width, o.height, o.depth⟩,
   ⟨p.x - (p.width - o.width) / 4, topY, p.z, true, o.width, o.height, o.depth⟩,
   ⟨p.x, topY, p.z + (p.depth - o.depth) / 4, true, o.width, o.height, o.depth⟩,
   ⟨p.x, topY, p.z - (p.depth - o.depth) / 4, true, o.width, o.height, o.depth⟩,
   ⟨p.x + p.width / 2 + o.width / 2, p.y, p.z, false, o.width, o.height, o.depth⟩,
   ⟨p.x, p.y, p.z + p.depth / 2 + o.depth / 2, false, o.width, o.height, o.depth⟩,
   ⟨p.x + (p.width / 2 + o.width / 2), p.y, p.z + (p.depth / 2 + o.depth / 2),
     false, o.width, o.height, o.depth⟩,
   ⟨p.x - (p.width / 2 + o.width / 2), p.y, p.z + (p.depth / 2 + o.depth / 2),
     false, o.width, o.height, o.depth⟩,
   ⟨p.x + (p.width / 2 + o.width / 2), p.y, p.z - (p.depth / 2 + o.depth / 2),
     false, o.width, o.height, o.depth⟩,
   ⟨p.x - (p.width / 2 + o.width / 2), p.y, p.z - (p.depth / 2 + o.depth / 2),
     false, o.width, o.height, o.depth⟩]

/-- PackingWorker.generateCandidatePositions for one orientation: the
floor corner, eleven candidates per placed box, and a 5 x 5 floor grid. -/
def generateCandidatePositions (o : Dims) (placedBoxes : List PlacedBox)
    (container : Container) : List Candidate :=
  let corner : Candidate :=
    ⟨-(container.width / 2) + o.width / 2, o.height / 2,
     -(container.depth / 2) + o.depth / 2, false, o.width, o.height, o.depth⟩
  let grid : List Candidate :=
    (List.range 5).flatMap (fun ix =>
      (List.range 5).map (fun iz =>
        ⟨-(container.width / 2) + ((ix : ℚ) + 1/2) * (container.width / 5),
         o.height / 2,
         -(container.depth / 2) + ((iz : ℚ) + 1/2) * (container.depth / 5),
         false, o.width, o.height, o.depth⟩))
  corner :: (placedBoxes.flatMap (candidatesForPlaced o) ++ grid)

/-- The candidate comparator of findPlacement: a strictly precedes b
when the first coordinate (in the order y, z, x) differing by more than
0.001 is smaller in a.  The source passes this comparator to Array.sort;
it is not transitive on ties, so the engine order is implementation
defined there.  The embedding fixes a stable insertion sort. -/
def candBefore (a b : Candidate) : Bool :=
  if |a.y - b.y| > 1/1000 then decide (a.y < b.y)
  else if |a.z - b.z| > 1/1000 then decide (a.z < b.z)
  else if |a.x - b.x| > 1/1000 then decide (a.x < b.x)
  else false

/-- Stable insertion into a candidate list sorted by candBefore. -/
def insertCand (x : Candidate) : List Candidate → List Candidate
  | [] => [x]
  | y :: ys => if candBefore y x then y :: insertCand x ys else x :: y :: ys

/-- Stable sort of the candidate list by candBefore. -/
def sortCands : List Candidate → List Candidate
  | [] => []
  | x :: xs => insertCand x (sortCands xs)

/-- The candidate processing step inside the scan loop of
PackingWorker.findPlacement: build the test box from the candidate
position and orientation dimensions, then, when the declared y exceeds
the oriented height and the candidate is not marked skipGravity, replace
y by the gravity drop. -/
def applyCandidate (box : Box) (cand : Candidate) (placedBoxes : List PlacedBox)
    (container : Container) : PlacedBox :=
  let testBox : PlacedBox :=
    ⟨box.id, cand.width, cand.height, cand.depth, cand.x, cand.y, cand.z⟩
  if cand.y > testBox.height ∧ cand.skipGravity = false then
    { testBox with y := dropBox testBox placedBoxes container }
  else testBox

/-- The scan over sorted candidates: accept the first candidate whose
test box passes isValidPlacement at minStability 0.2, parameterized by
the candidate processing step. -/
def scanWith (f : Box → Candidate → List PlacedBox → Container → PlacedBox)
    (box : Box) (placedBoxes : List PlacedBox) (container : Container) :
    List Candidate → Option PlacedBox
  | [] => none
  | c :: rest =>
    let testBox := f box c placedBoxes container
    if isValidPlacement testBox placedBoxes container (1/5) then some testBox
    else scanWith f box placedBoxes container rest

/-- PackingWorker.findPlacement: enumerate orientations (the box itself
when rotation is disabled), generate and merge candidates, sort them
bottom back left, and accept the first valid one.  The seed parameter is
in the source signature but unused in its body. -/
def findPlacement (allowRotation : Bool) (box : Box)
    (placedBoxes : List PlacedBox) (container : Container) (_seed : ℕ) :
    Option PlacedBox :=
  let orientations : List Dims :=
    if allowRotation then getUniqueOrientations box
    else [⟨box.width, box.height, box.depth⟩]
  let candidates : List Candidate :=
    orientations.flatMap (fun o => generateCandidatePositions o placedBoxes container)
  scanWith applyCandidate box placedBoxes container (sortCands candidates)

/-! ## PackingWorker: one packing attempt -/

/-- The sort score of attemptPacking: volume times (1 + noise), the
noise drawn from the seeded stream only when useNoise is set and the
seed is positive (random() * 0.4 - 0.2); at seed 0 the noise term is
exactly 0. -/
def getScore (cfg : MCConfig) (noise : ℕ → ℚ) (seed : ℕ) (draw : ℕ)
    (box : Box) : ℚ :=
  let volume := box.width * box.height * box.depth
  let n : ℚ :=
    if cfg.useNoise ∧ seed > 0 then noise (seed + draw) * (2/5) - 1/5 else 0
  volume * (1 + n)

/-- Pair every box with its score, drawing noise in input order. -/
def scoreBoxes (cfg : MCConfig) (noise : ℕ → ℚ) (seed : ℕ) :
    ℕ → List Box → List (Box × ℚ)
  | _, [] => []
  | draw, b :: bs =>
    (b, getScore cfg noise seed draw b) :: scoreBoxes cfg noise seed (draw + 1) bs

/-- Stable insertion into a list sorted descending by key. -/
def insertDescBy {α : Type} (key : α → ℚ) (x : α) : List α → List α
  | [] => [x]
  | y :: ys => if key x ≥ key y then x :: y :: ys else y :: insertDescBy key x ys

/-- Stable sort, descending by key; equal keys keep input order. -/
def sortDescBy {α : Type} (key : α → ℚ) : List α → List α
  | [] => []
  | x :: xs => insertDescBy key x (sortDescBy key xs)

/-- The box ordering of attemptPacking: sort descending by noisy score,
ties keeping input order. -/
def sortedBoxes (cfg : MCConfig) (noise : ℕ → ℚ) (seed : ℕ)
    (boxes : List Box) : List Box :=
  (sortDescBy Prod.snd (scoreBoxes cfg noise seed 0 boxes)).map Prod.fst

/-- The placement loop of attemptPacking: place each box in order,
appending successful placements and skipping boxes with no valid
placement. -/
def placeAllGo (allowRotation : Bool) (container : Container) (seed : ℕ) :
    List Box → List PlacedBox → List PlacedBox
  | [], acc => acc
  | b :: bs, acc =>
    match findPlacement allowRotation b acc container seed with
    | some p => placeAllGo allowRotation container seed bs (acc ++ [p])
    | none => placeAllGo allowRotation container seed bs acc

/-- PackingWorker.attemptPacking: order the boxes by noisy descending
volume and place them greedily. -/
def attemptPacking (ctx : WorkerCtx) (boxes : List Box)
    (container : Container) (seed : ℕ) : List PlacedBox :=
  placeAllGo ctx.allowRotation container seed
    (sortedBoxes ctx.mcConfig ctx.noise seed boxes) []

/-- The pure volume sorted greedy placement: descending volume order,
no noise machinery. -/
def pureVolumeGreedy (allowRotation : Bool) (boxes : List Box)
    (container : Container) : List PlacedBox :=
  placeAllGo allowRotation container 0
    (sortDescBy (fun b => b.width * b.height * b.depth) boxes) []

/-! ## PackingWorker: container size search -/

/-- The probe of one binary search midpoint: up to searchAttempts
placement attempts with seeds 0, 1, ..., succeeding as soon as one
places every box. -/
def probeSuccess (ctx : WorkerCtx) (boxes : List Box)
    (container : Container) : Bool :=
  (List.range ctx.mcConfig.searchAttempts).any
    (fun attempt => (attemptPacking ctx boxes container attempt).length = boxes.length)

/-- The while loop of PackingWorker.binarySearchDimension, structurally
recursive over an upper bound on the iteration count; the guard
high - low > 0.05 is still tested at every step.  Success narrows high
to mid and records mid as bestFit; failure raises low to mid + 0.05. -/
def bsLoop (feasible : ℚ → Bool) : ℕ → ℚ → ℚ → ℚ → ℚ
  | 0, _, _, bestFit => bestFit
  | fuel + 1, low, high, bestFit =>
    if high - low > 1/20 then
      if feasible ((low + high) / 2) then
        bsLoop feasible fuel low ((low + high) / 2) ((low + high) / 2)
      else bsLoop feasible fuel ((low + high) / 2 + 1/20) high bestFit
    else bestFit

/-- PackingWorker.binarySearchDimension: search one axis of the
container over [minValue, maxValue] with tolerance 0.05, probing each
midpoint with probeSuccess; bestFit starts at the untested maxValue.
The loop bound ceil((maxValue - minValue) * 20) + 1 exceeds the
iteration count of the source loop (the interval at least halves each
step), so the embedded loop always exits through its guard. -/
def binarySearchDimension (ctx : WorkerCtx) (boxes : List Box)
    (baseContainer : Container) (searchDim : Dim)
    (minValue maxValue : ℚ) : ℚ :=
  bsLoop (fun mid => probeSuccess ctx boxes (baseContainer.set searchDim mid))
    ((⌈(maxValue - minValue) * 20⌉.toNat) + 1) minValue maxValue maxValue

/-- The JS truthiness fallback v || d: null and 0 both fall back. -/
def jsOr (v : Option ℚ) (d : ℚ) : ℚ :=
  match v with
  | none => d
  | some x => if x = 0 then d else x

/-- The axes whose constraint is null, in source push order width,
height, depth. -/
def unconstrainedDimsOf (cs : Constraints) : List Dim :=
  (if cs.width = none then [Dim.width] else []) ++
  (if cs.height = none then [Dim.height] else []) ++
  (if cs.depth = none then [Dim.depth] else [])

/-- Total volume of the boxes (reduce with initial 0). -/
def totalVolume (boxes : List Box) : ℚ :=
  boxes.foldl (fun sum b => sum + b.width * b.height * b.depth) 0

/-- Math.max over the boxes on one axis.  The source spreads the list
into Math.max; for the empty list that gives -Infinity, which has no
rational counterpart, so the embedding returns 0 there (the engine is
only ever run on nonempty box lists). -/
def maxBoxDim (boxes : List Box) (d : Dim) : ℚ :=
  match boxes with
  | [] => 0
  | b :: bs =>
    let f : Box → ℚ := fun x =>
      match d with
      | Dim.width => x.width
      | Dim.height => x.height
      | Dim.depth => x.depth
    bs.foldl (fun m x => max m (f x)) (f b)

/-- Least k with k ^ n at least q: the exact value of
Math.ceil(Math.pow(q, 1/n)) for nonnegative q and positive n. -/
def ceilRootGo (n : ℕ) (q : ℚ) : ℕ → ℕ → ℕ
  | 0, k => k
  | fuel + 1, k => if (k : ℚ) ^ n ≥ q then k else ceilRootGo n q fuel (k + 1)

/-- Math.ceil(Math.pow(q, 1/n)) over the rationals. -/
def ceilRoot (n : ℕ) (q : ℚ) : ℕ :=
  ceilRootGo n q (⌈q⌉.toNat + 1) 0

/-- The final Monte Carlo pass of findMinimumContainer: finalAttempts
placement attempts with seeds 0, 1, ..., keeping the attempt placing
the most boxes and stopping early once every box is placed. -/
def finalLoop (ctx : WorkerCtx) (boxes : List Box) (container : Container) :
    ℕ → ℕ → List PlacedBox → List PlacedBox
  | 0, _, bestPlaced => bestPlaced
  | n + 1, i, bestPlaced =>
    let p := attemptPacking ctx boxes container i
    let bestPlaced' := if p.length > bestPlaced.length then p else bestPlaced
    if bestPlaced'.length = boxes.length then bestPlaced'
    else finalLoop ctx boxes container n (i + 1) bestPlaced'

/-- One expansion step: grow every unconstrained axis by the factor 1.1
rounded up to an integer, with the +1 correction of the source (which
compares the new value with itself divided by 1.1, so it only fires at
value 0). -/
def expandContainer (uds : List Dim) (c : Container) : Container :=
  uds.foldl
    (fun c d =>
      let grown : ℚ := (⌈c.get d * (11/10)⌉ : ℤ)
      let grown := if grown = grown / (11/10) then grown + 1 else grown
      c.set d grown)
    c

/-- The expansion fallback loop of findMinimumContainer: while not all
boxes are placed and fewer than 20 expansion attempts were made, expand
the unconstrained axes and retry one placement attempt with seed 0. -/
def expandLoop (ctx : WorkerCtx) (boxes : List Box) (uds : List Dim) :
    ℕ → Container → List PlacedBox → Container × List PlacedBox
  | 0, c, placed => (c, placed)
  | n + 1, c, placed =>
    if placed.length < boxes.length then
      let c' := expandContainer uds c
      let placed' := attemptPacking ctx boxes c' 0
      expandLoop ctx boxes uds n c' placed'
    else (c, placed)

/-- Ceil to the nearest 0.125 increment, then the toFixed(4) drift fix
(round to four decimal places). -/
def roundDim (v : ℚ) : ℚ :=
  let ceiled : ℚ := (⌈v / (1/8)⌉ : ℤ) * (1/8)
  (round (ceiled * 10000) : ℤ) / 10000

/-- The final rounding of findMinimumContainer applied to all axes. -/
def roundContainer (c : Container) : Container :=
  ⟨roundDim c.width, roundDim c.height, roundDim c.depth⟩

/-- The pipeline of findMinimumContainer before the final rounding:
initial estimate, per axis binary search, final Monte Carlo pass and
the expansion fallback; returns the working container together with the
placed boxes computed against it. -/
def preRound (ctx : WorkerCtx) (boxes : List Box) (cs : Constraints) :
    Container × List PlacedBox :=
  let uds := unconstrainedDimsOf cs
  let c0 : Container :=
    ⟨jsOr cs.width (maxBoxDim boxes Dim.width),
     jsOr cs.height (maxBoxDim boxes Dim.height),
     jsOr cs.depth (maxBoxDim boxes Dim.depth)⟩
  let constrainedVolume :=
    jsOr cs.width 1 * jsOr cs.height 1 * jsOr cs.depth 1
  let c1 :=
    if uds.length > 0 then
      let volumePerDim : ℕ :=
        ceilRoot uds.length (totalVolume boxes * (11/10) / constrainedVolume)
      uds.foldl (fun c d => c.set d (max (maxBoxDim boxes d) (volumePerDim : ℚ))) c0
    else c0
  let c2 :=
    uds.foldl
      (fun c d =>
        c.set d (binarySearchDimension ctx boxes c d (maxBoxDim boxes d)
          (max (c.get d * 3) (maxBoxDim boxes d * 5))))
      c1
  let bestPlaced := finalLoop ctx boxes c2 ctx.mcConfig.finalAttempts 0 []
  if bestPlaced.length < boxes.length ∧ uds.length > 0 then
    expandLoop ctx boxes uds 20 c2 bestPlaced
  else (c2, bestPlaced)

/-- PackingWorker.findMinimumContainer: the search pipeline followed by
the final rounding.  The source always returns an object (never null),
hence the embedding always returns some. -/
def findMinimumContainer (ctx : WorkerCtx) (boxes : List Box)
    (cs : Constraints) : Option (Container × List PlacedBox) :=
  let cp := preRound ctx boxes cs
  some (roundContainer cp.1, cp.2)

/-- PackingWorker.optimize: wrap findMinimumContainer; a null result
would report a structured failure, any other result is a success. -/
def optimize (ctx : WorkerCtx) (boxes : List Box) (cs : Constraints) :
    OptimizeResult :=
  match findMinimumContainer ctx boxes cs with
  | none => ⟨false, some "Could not find valid packing", none, []⟩
  | some (c, placed) => ⟨true, none, some c, placed⟩

/-- The geometric result invariant: the placed boxes are pairwise
collision free (in both argument orders) and each lies within the
container. -/
def PlacementInvariant (container : Container) (l : List PlacedBox) : Prop :=
  l.Pairwise (fun a b => checkCollision a b = false ∧ checkCollision b a = false) ∧
  ∀ b ∈ l, isWithinContainer b container = true

/-! ## Basic solver lemmas -/

theorem checkCollision_comm (a b : PlacedBox) :
    checkCollision a b = checkCollision b a := by
  rw [Bool.eq_iff_iff]
  simp only [checkCollision, Bool.and_eq_true, decide_eq_true_eq]
  constructor <;> intro h <;> tauto

theorem checkCollisionWithList_eq_false {box : PlacedBox}
    {l : List PlacedBox} (h : checkCollisionWithList box l = false) :
    ∀ p ∈ l, checkCollision box p = false := by
  intro p hp
  have := List.any_eq_false.mp h p hp
  exact Bool.not_eq_true _ ▸ Bool.eq_false_iff.mpr this

theorem isValidPlacement_true {box : PlacedBox} {placed : List PlacedBox}
    {container : Container} {ms : ℚ}
    (h : isValidPlacement box placed container ms = true) :
    isWithinContainer box container = true ∧
    checkCollisionWithList box placed = false := by
  unfold isValidPlacement at h
  split_ifs at h with h1 h2 h3
  all_goals simp_all [Bool.not_eq_true]

/-! ## Claim C9: dropBox on an obstructed start position -/

/-- Claim C9: when a box already collides with a placed box at its given
y, and that y exceeds half the box height, dropBox returns y + 0.1, a
value strictly above the starting position; the gravity drop is not
guaranteed to move the box downward when the start is obstructed. -/
theorem dropBox_obstructed_start_returns_above (box : PlacedBox)
    (placed : List PlacedBox) (container : Container)
    (hy : box.y > box.height / 2)
    (hc : checkCollisionWithList box placed = true) :
    dropBox box placed container = box.y + 1/10 ∧ box.y < box.y + 1/10 := by
  refine ⟨?_, by linarith⟩
  have h1 : (0 : ℚ) < (box.y - box.height / 2) * 2 := by linarith
  have hpos : 0 < ⌈(box.y - box.height / 2) * 2⌉ := Int.ceil_pos.mpr h1
  obtain ⟨k, hk⟩ : ∃ k, (⌈(box.y - box.height / 2) * 2⌉).toNat = k + 1 := by
    refine ⟨(⌈(box.y - box.height / 2) * 2⌉).toNat - 1, ?_⟩
    omega
  have hbox : ({ box with y := box.y } : PlacedBox) = box := rfl
  simp only [dropBox]
  rw [hk]
  simp only [dropLoop]
  rw [hbox, if_pos hy, if_pos hc]

/-- Witness for C9 at a concrete obstructed input. -/
theorem dropBox_obstructed_start_returns_above_witness :
    dropBox ⟨0, 1, 1, 1, 0, 26/10, 0⟩ [⟨1, 1, 1, 1, 0, 26/10, 0⟩] ⟨10, 10, 10⟩ =
      26/10 + 1/10 ∧ (26/10 : ℚ) < 26/10 + 1/10 :=
  dropBox_obstructed_start_returns_above
    ⟨0, 1, 1, 1, 0, 26/10, 0⟩ [⟨1, 1, 1, 1, 0, 26/10, 0⟩] ⟨10, 10, 10⟩
    (by norm_num) (by with_unfolding_all decide)

/-! ## Claim C6: characterization of dropBox -/

theorem dropLoop_hit (box : PlacedBox) (placed : List PlacedBox) (minY : ℚ) :
    ∀ (fuel k : ℕ) (testY : ℚ), k < fuel →
      testY - (k : ℚ) * (1/2) > minY →
      collidesAt box placed (testY - (k : ℚ) * (1/2)) = true →
      (∀ j < k, collidesAt box placed (testY - (j : ℚ) * (1/2)) = false) →
      dropLoop box placed minY fuel testY = (testY - (k : ℚ) * (1/2)) + 1/10 := by
  intro fuel
  induction fuel with
  | zero =>
    intro k testY hk _ _ _
    exact absurd hk (Nat.not_lt_zero k)
  | succ fuel ih =>
    intro k testY hk hpos hcol hmin
    cases k with
    | zero =>
      simp only [Nat.cast_zero, zero_mul, sub_zero] at hpos hcol ⊢
      unfold collidesAt at hcol
      simp only [dropLoop]
      rw [if_pos hpos, if_pos hcol]
    | succ k' =>
      push_cast at hpos hcol ⊢
      have hnn : (0 : ℚ) ≤ (k' : ℚ) := Nat.cast_nonneg k'
      have hguard : testY > minY := by linarith
      have hnc : collidesAt box placed testY = false := by
        have h0 := hmin 0 (Nat.succ_pos k')
        simpa using h0
      have step : dropLoop box placed minY (fuel + 1) testY =
          dropLoop box placed minY fuel (testY - 1/2) := by
        unfold collidesAt at hnc
        simp only [dropLoop]
        rw [if_pos hguard, if_neg (by simp [hnc])]
      have e1 : (testY - 1/2) - (k' : ℚ) * (1/2) = testY - ((k' : ℚ) + 1) * (1/2) := by
        ring
      have ihres := ih k' (testY - 1/2) (Nat.lt_of_succ_lt_succ hk)
        (by rw [e1]; exact hpos)
        (by rw [e1]; exact hcol)
        (fun j hj => by
          have hj1 := hmin (j + 1) (Nat.succ_lt_succ hj)
          push_cast at hj1
          have e2 : (testY - 1/2) - (j : ℚ) * (1/2) = testY - ((j : ℚ) + 1) * (1/2) := by
            ring
          rw [e2]
          exact hj1)
      rw [step, ihres]
      ring

theorem dropLoop_miss (box : PlacedBox) (placed : List PlacedBox) (minY : ℚ) :
    ∀ (fuel : ℕ) (testY : ℚ),
      (∀ k : ℕ, testY - (k : ℚ) * (1/2) > minY →
        collidesAt box placed (testY - (k : ℚ) * (1/2)) = false) →
      dropLoop box placed minY fuel testY = minY + 1/1000 := by
  intro fuel
  induction fuel with
  | zero => intro testY _; rfl
  | succ fuel ih =>
    intro testY hmiss
    by_cases hguard : testY > minY
    · have hnc : collidesAt box placed testY = false := by
        have h0 := hmiss 0 (by simpa using hguard)
        simpa using h0
      have step : dropLoop box placed minY (fuel + 1) testY =
          dropLoop box placed minY fuel (testY - 1/2) := by
        unfold collidesAt at hnc
        simp only [dropLoop]
        rw [if_pos hguard, if_neg (by simp [hnc])]
      rw [step]
      refine ih (testY - 1/2) (fun k hk => ?_)
      have e3 : (testY - 1/2) - (k : ℚ) * (1/2) = testY - ((k : ℚ) + 1) * (1/2) := by
        ring
      rw [e3] at hk ⊢
      have h4 := hmiss (k + 1)
      push_cast at h4
      exact h4 hk
    · simp only [dropLoop]
      rw [if_neg hguard]

/-- Claim C6: dropBox tests positions from the current y downward in
decrements of 0.5 while they stay above the floor rest height, and
returns the first colliding tested position plus 0.1, or height/2 plus
0.001 when no tested position collides. -/
theorem dropBox_first_collision_characterization (box : PlacedBox)
    (placed : List PlacedBox) (container : Container) :
    (∀ k : ℕ, box.y - (k : ℚ) * (1/2) > box.height / 2 →
      collidesAt box placed (box.y - (k : ℚ) * (1/2)) = true →
      (∀ j < k, collidesAt box placed (box.y - (j : ℚ) * (1/2)) = false) →
      dropBox box placed container = (box.y - (k : ℚ) * (1/2)) + 1/10) ∧
    ((∀ k : ℕ, box.y - (k : ℚ) * (1/2) > box.height / 2 →
      collidesAt box placed (box.y - (k : ℚ) * (1/2)) = false) →
      dropBox box placed container = box.height / 2 + 1/1000) := by
  constructor
  · intro k hpos hcol hmin
    have hfuel : k < (⌈(box.y - box.height / 2) * 2⌉).toNat := by
      have h1 : ((k : ℚ)) < (box.y - box.height / 2) * 2 := by linarith
      have h2 : ((k : ℤ) : ℚ) < (box.y - box.height / 2) * 2 := by push_cast; exact h1
      have := Int.lt_ceil.mpr h2
      omega
    exact dropLoop_hit box placed (box.height / 2) _ k box.y hfuel hpos hcol hmin
  · intro hmiss
    exact dropLoop_miss box placed (box.height / 2) _ box.y hmiss

/-- Witness for C6: a drop onto a floor cube stops at its first
colliding tested position (k = 3), and a drop with nothing below comes
to rest on the floor. -/
theorem dropBox_first_collision_characterization_witness :
    dropBox ⟨0, 1, 1, 1, 0, 26/10, 0⟩ [⟨1, 1, 1, 1, 0, 1/2, 0⟩] ⟨10, 10, 10⟩ =
      (26/10 - (3 : ℕ) * (1/2) : ℚ) + 1/10 ∧
    dropBox ⟨0, 1, 2, 1, 0, 3/2, 0⟩ [] ⟨10, 10, 10⟩ = (2 : ℚ) / 2 + 1/1000 :=
  ⟨(dropBox_first_collision_characterization
      ⟨0, 1, 1, 1, 0, 26/10, 0⟩ [⟨1, 1, 1, 1, 0, 1/2, 0⟩] ⟨10, 10, 10⟩).1
      3 (by norm_num) (by with_unfolding_all decide) (by with_unfolding_all decide),
   (dropBox_first_collision_characterization
      ⟨0, 1, 2, 1, 0, 3/2, 0⟩ [] ⟨10, 10, 10⟩).2 (fun k _ => rfl)⟩

/-! ## Claim C5: the gravity replacement condition in findPlacement -/

/-- Counterexample to C5 as stated: a candidate whose declared y (1.5)
exceeds half the oriented height (2/2 = 1) and is not marked
skipGravity is nonetheless kept at its declared y, because the source
compares against the full oriented height, not half of it. -/
theorem gravity_half_height_rule_fails :
    ¬ ((applyCandidate ⟨0, 1, 2, 1⟩ ⟨0, 3/2, 0, false, 1, 2, 1⟩ [] ⟨10, 10, 10⟩).y =
      if (3/2 : ℚ) > 2 / 2 ∧ false = false then
        dropBox ⟨0, 1, 2, 1, 0, 3/2, 0⟩ [] ⟨10, 10, 10⟩
      else 3/2) := by with_unfolding_all decide

/-- Claim C5 as amended: during candidate scanning the candidate y is
replaced by the gravity drop exactly when the declared y exceeds the
full oriented box height and the candidate is not marked skipGravity;
otherwise the declared position is kept unchanged. -/
theorem findPlacement_gravity_full_height_rule (box : Box) (cand : Candidate)
    (placed : List PlacedBox) (container : Container) :
    applyCandidate box cand placed container =
      ⟨box.id, cand.width, cand.height, cand.depth, cand.x,
        if cand.y > cand.height ∧ cand.skipGravity = false then
          dropBox ⟨box.id, cand.width, cand.height, cand.depth, cand.x, cand.y, cand.z⟩
            placed container
        else cand.y,
        cand.z⟩ := by
  simp only [applyCandidate]
  split <;> rfl

/-! ## Claim C7: the stability score -/

theorem supportOverlapArea_nonneg (box p : PlacedBox) :
    0 ≤ supportOverlapArea box p := by
  simp only [supportOverlapArea]
  split_ifs with h
  · exact le_of_lt (mul_pos (by linarith [h.1]) (by linarith [h.2]))
  · exact le_refl 0

theorem stabilityStep_eq (box p : PlacedBox) (acc : ℚ) :
    stabilityStep box acc p =
      acc + (if supportsBox box p = true then supportOverlapArea box p else 0) := by
  simp only [stabilityStep, supportOverlapArea, supportsBox, decide_eq_true_eq]
  split_ifs <;> simp

theorem stability_fold_eq_sum (box : PlacedBox) :
    ∀ (l : List PlacedBox) (a : ℚ),
      l.foldl (stabilityStep box) a =
        a + ((l.filter (supportsBox box)).map (supportOverlapArea box)).sum := by
  intro l
  induction l with
  | nil => intro a; simp
  | cons p l ih =>
    intro a
    rw [List.foldl_cons, stabilityStep_eq, List.filter_cons]
    by_cases hc : supportsBox box p = true
    · rw [if_pos hc, if_pos hc]
      simp only [List.map_cons, List.sum_cons]
      rw [ih]
      ring
    · rw [if_neg hc, if_neg hc, add_zero]
      exact ih a

/-- Claim C7: the stability score returns 1 when the bottom face is
within 0.1 of the floor; otherwise it is the sum of the positive
footprint overlap areas of the placed boxes whose top face lies within
0.5 of the bottom face, divided by the footprint area, clamped to 1,
and halved when below 0.5; for boxes with positive footprint dimensions
the returned value always lies in [0, 1]. -/
theorem calculateStability_spec_and_bounds (box : PlacedBox)
    (placed : List PlacedBox) (container : Container)
    (hw : 0 < box.width) (hd : 0 < box.depth) :
    (|box.y - box.height / 2| < 1/10 →
      calculateStability box placed container = 1) ∧
    (¬ |box.y - box.height / 2| < 1/10 →
      calculateStability box placed container =
        (if min (((placed.filter (supportsBox box)).map
              (supportOverlapArea box)).sum / (box.width * box.depth)) 1 < 1/2 then
          min (((placed.filter (supportsBox box)).map
              (supportOverlapArea box)).sum / (box.width * box.depth)) 1 * (1/2)
        else
          min (((placed.filter (supportsBox box)).map
              (supportOverlapArea box)).sum / (box.width * box.depth)) 1)) ∧
    0 ≤ calculateStability box placed container ∧
    calculateStability box placed container ≤ 1 := by
  have hfold := stability_fold_eq_sum box placed 0
  have hsum : (0:ℚ) ≤ ((placed.filter (supportsBox box)).map
      (supportOverlapArea box)).sum := by
    apply List.sum_nonneg
    intro x hx
    obtain ⟨p, _, rfl⟩ := List.mem_map.mp hx
    exact supportOverlapArea_nonneg box p
  have harea : (0:ℚ) < box.width * box.depth := mul_pos hw hd
  have hratio0 : (0:ℚ) ≤ min (((placed.filter (supportsBox box)).map
      (supportOverlapArea box)).sum / (box.width * box.depth)) 1 :=
    le_min (div_nonneg hsum (le_of_lt harea)) zero_le_one
  have hratio1 : min (((placed.filter (supportsBox box)).map
      (supportOverlapArea box)).sum / (box.width * box.depth)) 1 ≤ 1 :=
    min_le_right _ _
  constructor
  · intro hfloor
    simp only [calculateStability]
    rw [if_pos hfloor]
  constructor
  · intro hfloor
    simp only [calculateStability]
    rw [if_neg hfloor, hfold, zero_add]
  · by_cases hfloor : |box.y - box.height / 2| < 1/10
    · simp only [calculateStability]
      rw [if_pos hfloor]
      norm_num
    · simp only [calculateStability]
      rw [if_neg hfloor, hfold, zero_add]
      split_ifs with hhalf
      · constructor
        · positivity
        · nlinarith
      · exact ⟨hratio0, hratio1⟩

/-- Witness for C7: an elevated unit cube fully supported by a floor
cube; the theorem gives the [0, 1] bounds at this input. -/
theorem calculateStability_spec_and_bounds_witness :
    0 ≤ calculateStability ⟨0, 1, 1, 1, 0, 3/2, 0⟩ [⟨1, 1, 1, 1, 0, 1/2, 0⟩]
        ⟨10, 10, 10⟩ ∧
    calculateStability ⟨0, 1, 1, 1, 0, 3/2, 0⟩ [⟨1, 1, 1, 1, 0, 1/2, 0⟩]
        ⟨10, 10, 10⟩ ≤ 1 :=
  ⟨(calculateStability_spec_and_bounds ⟨0, 1, 1, 1, 0, 3/2, 0⟩
      [⟨1, 1, 1, 1, 0, 1/2, 0⟩] ⟨10, 10, 10⟩ (by norm_num) (by norm_num)).2.2.1,
   (calculateStability_spec_and_bounds ⟨0, 1, 1, 1, 0, 3/2, 0⟩
      [⟨1, 1, 1, 1, 0, 1/2, 0⟩] ⟨10, 10, 10⟩ (by norm_num) (by norm_num)).2.2.2⟩

/-! ## Claim C4: the per axis binary search -/

theorem bsLoop_inv (feasible : ℚ → Bool) (minValue maxValue : ℚ) :
    ∀ (fuel : ℕ) (low high best : ℚ), minValue ≤ low → high ≤ maxValue →
      (best = maxValue ∨
        (feasible best = true ∧ minValue ≤ best ∧ best ≤ maxValue)) →
      (bsLoop feasible fuel low high best = maxValue ∨
        (feasible (bsLoop feasible fuel low high best) = true ∧
         minValue ≤ bsLoop feasible fuel low high best ∧
         bsLoop feasible fuel low high best ≤ maxValue)) := by
  intro fuel
  induction fuel with
  | zero => intro low high best _ _ hbest; exact hbest
  | succ fuel ih =>
    intro low high best hlow hhigh hbest
    by_cases hguard : high - low > 1/20
    · have hlh : low < high := by linarith
      have hmid1 : low < (low + high) / 2 := by linarith
      have hmid2 : (low + high) / 2 < high := by linarith
      by_cases hf : feasible ((low + high) / 2) = true
      · have step : bsLoop feasible (fuel + 1) low high best =
            bsLoop feasible fuel low ((low + high) / 2) ((low + high) / 2) := by
          simp only [bsLoop]
          rw [if_pos hguard, if_pos hf]
        rw [step]
        exact ih low ((low + high) / 2) ((low + high) / 2) hlow (by linarith)
          (Or.inr ⟨hf, by linarith, by linarith⟩)
      · have step : bsLoop feasible (fuel + 1) low high best =
            bsLoop feasible fuel ((low + high) / 2 + 1/20) high best := by
          simp only [bsLoop]
          rw [if_pos hguard, if_neg hf]
        rw [step]
        exact ih ((low + high) / 2 + 1/20) high best (by linarith) hhigh hbest
    · simp only [bsLoop]
      rw [if_neg hguard]
      exact hbest

/-- Counterexample to C4 as stated: searching container width over the
interval [2, 3] for a 2 x 2 x 2 box that can never fit (the container
height is fixed at 1), every probe fails, and the search returns its
untested initial upper bound 3, a value at which the full feasibility
check fails. -/
theorem binarySearch_returns_infeasible_max :
    binarySearchDimension ⟨⟨1, 1, false⟩, false, fun _ => 0⟩ [⟨0, 2, 2, 2⟩]
        ⟨1, 1, 1⟩ Dim.width 2 3 = 3 ∧
    probeSuccess ⟨⟨1, 1, false⟩, false, fun _ => 0⟩ [⟨0, 2, 2, 2⟩]
        (Container.set ⟨1, 1, 1⟩ Dim.width 3) = false := by
  with_unfolding_all decide

/-- Claim C4 as amended: the per axis binary search returns either a
value at which the full feasibility check (up to searchAttempts
placement attempts with seeds 0, 1, ...) succeeds, or, when no probe
succeeded, the untested initial upper bound maxValue; and it never
returns a value more than 0.05 below the minimum feasible size inside
the search interval (whenever some feasible size exists in the
interval, the returned value is at least some feasible size minus
0.05). -/
theorem binarySearch_feasible_or_max (ctx : WorkerCtx) (boxes : List Box)
    (baseContainer : Container) (searchDim : Dim) (minValue maxValue : ℚ) :
    (binarySearchDimension ctx boxes baseContainer searchDim minValue maxValue =
        maxValue ∨
      probeSuccess ctx boxes (baseContainer.set searchDim
        (binarySearchDimension ctx boxes baseContainer searchDim minValue maxValue)) =
        true) ∧
    (∀ s, minValue ≤ s → s ≤ maxValue →
      probeSuccess ctx boxes (baseContainer.set searchDim s) = true →
      ∃ t, minValue ≤ t ∧ t ≤ maxValue ∧
        probeSuccess ctx boxes (baseContainer.set searchDim t) = true ∧
        binarySearchDimension ctx boxes baseContainer searchDim minValue maxValue ≥
          t - 1/20) := by
  have hinv := bsLoop_inv
    (fun mid => probeSuccess ctx boxes (baseContainer.set searchDim mid))
    minValue maxValue ((⌈(maxValue - minValue) * 20⌉.toNat) + 1)
    minValue maxValue maxValue (le_refl _) (le_refl _) (Or.inl rfl)
  constructor
  · rcases hinv with h | ⟨h1, _, _⟩
    · exact Or.inl h
    · exact Or.inr h1
  · intro s hs1 hs2 hfeas
    rcases hinv with h | ⟨h1, h2, h3⟩
    · refine ⟨s, hs1, hs2, hfeas, ?_⟩
      unfold binarySearchDimension
      rw [h]
      linarith
    · refine ⟨binarySearchDimension ctx boxes baseContainer searchDim minValue maxValue,
        h2, h3, h1, by linarith⟩

/-- Witness for C4 applied at a unit cube and the interval [1, 1.2]:
the feasible size 1 yields a feasible size within 0.05 of the returned
value. -/
theorem binarySearch_feasible_or_max_witness :
    ∃ t, (1:ℚ) ≤ t ∧ t ≤ 12/10 ∧
      probeSuccess ⟨⟨1, 1, false⟩, false, fun _ => 0⟩ [⟨0, 1, 1, 1⟩]
        (Container.set ⟨1, 1, 1⟩ Dim.width t) = true ∧
      binarySearchDimension ⟨⟨1, 1, false⟩, false, fun _ => 0⟩ [⟨0, 1, 1, 1⟩]
        ⟨1, 1, 1⟩ Dim.width 1 (12/10) ≥ t - 1/20 :=
  (binarySearch_feasible_or_max ⟨⟨1, 1, false⟩, false, fun _ => 0⟩ [⟨0, 1, 1, 1⟩]
      ⟨1, 1, 1⟩ Dim.width 1 (12/10)).2 1 (by norm_num) (by norm_num)
    (by with_unfolding_all decide)

/-! ## Claim C1: optimize on an input where nothing can be placed -/

/-- Claim C1 evaluation at the failing input: a single 3 x 3 x 3 box
with every axis constrained to 1 places nothing, yet optimize returns
success with an empty placedBoxes list, because findMinimumContainer
always returns an object and the failure branch of optimize is
unreachable. -/
theorem optimize_success_on_zero_placed :
    (optimize ⟨⟨1, 1, false⟩, false, fun _ => 0⟩ [⟨0, 3, 3, 3⟩]
        ⟨some 1, some 1, some 1⟩).success = true ∧
    (optimize ⟨⟨1, 1, false⟩, false, fun _ => 0⟩ [⟨0, 3, 3, 3⟩]
        ⟨some 1, some 1, some 1⟩).placedBoxes = [] := by with_unfolding_all decide

/-! ## Sorting lemmas for the box ordering -/

theorem getScore_seed_zero (cfg : MCConfig) (noise : ℕ → ℚ) (draw : ℕ)
    (b : Box) : getScore cfg noise 0 draw b = b.width * b.height * b.depth := by
  simp [getScore]

theorem scoreBoxes_seed_zero (cfg : MCConfig) (noise : ℕ → ℚ) :
    ∀ (draw : ℕ) (l : List Box),
      scoreBoxes cfg noise 0 draw l =
        l.map (fun b => (b, b.width * b.height * b.depth)) := by
  intro draw l
  induction l generalizing draw with
  | nil => rfl
  | cons b bs ih =>
    simp only [scoreBoxes, List.map_cons, getScore_seed_zero]
    exact congrArg _ (ih (draw + 1))

theorem insertDescBy_snd_map (key : Box → ℚ) (x : Box) :
    ∀ l : List Box,
      insertDescBy Prod.snd (x, key x) (l.map (fun b => (b, key b))) =
        (insertDescBy key x l).map (fun b => (b, key b)) := by
  intro l
  induction l with
  | nil => rfl
  | cons y ys ih =>
    simp only [List.map_cons, insertDescBy]
    by_cases h : key x ≥ key y
    · rw [if_pos h, if_pos h]
      simp
    · rw [if_neg h, if_neg h]
      simp only [List.map_cons]
      rw [ih]

theorem sortDescBy_snd_map (key : Box → ℚ) :
    ∀ l : List Box,
      sortDescBy Prod.snd (l.map (fun b => (b, key b))) =
        (sortDescBy key l).map (fun b => (b, key b)) := by
  intro l
  induction l with
  | nil => rfl
  | cons y ys ih =>
    simp only [List.map_cons, sortDescBy]
    rw [ih, insertDescBy_snd_map]

theorem sortedBoxes_seed_zero (cfg : MCConfig) (noise : ℕ → ℚ)
    (boxes : List Box) :
    sortedBoxes cfg noise 0 boxes =
      sortDescBy (fun b => b.width * b.height * b.depth) boxes := by
  unfold sortedBoxes
  rw [scoreBoxes_seed_zero, sortDescBy_snd_map, List.map_map]
  exact List.map_id _

/-- Claim C8: a placement attempt with seed 0 and useNoise enabled
orders the boxes by pure descending volume with no noise term (ties
stable), so its output is exactly the pure volume sorted greedy
placement. -/
theorem attemptPacking_seed_zero_pure_volume (noise : ℕ → ℚ)
    (sa fa : ℕ) (allowRotation : Bool) (boxes : List Box)
    (container : Container) :
    attemptPacking ⟨⟨sa, fa, true⟩, allowRotation, noise⟩ boxes container 0 =
      pureVolumeGreedy allowRotation boxes container := by
  unfold attemptPacking pureVolumeGreedy
  rw [sortedBoxes_seed_zero]

/-! ## Permutation and sublist structure of one attempt -/

theorem insertDescBy_perm {α : Type} (key : α → ℚ) (x : α) :
    ∀ l : List α, (insertDescBy key x l).Perm (x :: l) := by
  intro l
  induction l with
  | nil => exact List.Perm.refl _
  | cons y ys ih =>
    simp only [insertDescBy]
    by_cases h : key x ≥ key y
    · rw [if_pos h]
    · rw [if_neg h]
      exact (ih.cons y).trans (List.Perm.swap x y ys)

theorem sortDescBy_perm {α : Type} (key : α → ℚ) :
    ∀ l : List α, (sortDescBy key l).Perm l := by
  intro l
  induction l with
  | nil => exact List.Perm.refl _
  | cons y ys ih =>
    simp only [sortDescBy]
    exact (insertDescBy_perm key y (sortDescBy key ys)).trans (ih.cons y)

theorem scoreBoxes_map_fst (cfg : MCConfig) (noise : ℕ → ℚ) (seed : ℕ) :
    ∀ (draw : ℕ) (l : List Box),
      (scoreBoxes cfg noise seed draw l).map Prod.fst = l := by
  intro draw l
  induction l generalizing draw with
  | nil => rfl
  | cons b bs ih =>
    simp only [scoreBoxes, List.map_cons]
    exact congrArg _ (ih (draw + 1))

theorem sortedBoxes_perm (cfg : MCConfig) (noise : ℕ → ℚ) (seed : ℕ)
    (boxes : List Box) : (sortedBoxes cfg noise seed boxes).Perm boxes := by
  unfold sortedBoxes
  have h := List.Perm.map Prod.fst
    (sortDescBy_perm Prod.snd (scoreBoxes cfg noise seed 0 boxes))
  rw [scoreBoxes_map_fst] at h
  exact h

theorem applyCandidate_id (box : Box) (cand : Candidate)
    (placed : List PlacedBox) (container : Container) :
    (applyCandidate box cand placed container).id = box.id := by
  simp only [applyCandidate]
  split <;> rfl

theorem scanWith_some (box : Box) (placed : List PlacedBox)
    (container : Container) :
    ∀ (cs : List Candidate) (p : PlacedBox),
      scanWith applyCandidate box placed container cs = some p →
      isValidPlacement p placed container (1/5) = true ∧ p.id = box.id := by
  intro cs
  induction cs with
  | nil => intro p h; exact absurd h (by simp [scanWith])
  | cons c rest ih =>
    intro p h
    simp only [scanWith] at h
    split_ifs at h with hv
    · cases h
      exact ⟨hv, applyCandidate_id box c placed container⟩
    · exact ih p h

theorem findPlacement_some {allowRotation : Bool} {box : Box}
    {placed : List PlacedBox} {container : Container} {seed : ℕ}
    {p : PlacedBox}
    (h : findPlacement allowRotation box placed container seed = some p) :
    isValidPlacement p placed container (1/5) = true ∧ p.id = box.id := by
  unfold findPlacement at h
  exact scanWith_some box placed container _ p h

theorem placeAllGo_ids (allowRotation : Bool) (container : Container)
    (seed : ℕ) :
    ∀ (l : List Box) (acc : List PlacedBox),
      ∃ suffix : List PlacedBox,
        placeAllGo allowRotation container seed l acc = acc ++ suffix ∧
        List.Sublist (suffix.map PlacedBox.id) (l.map Box.id) := by
  intro l
  induction l with
  | nil =>
    intro acc
    exact ⟨[], by simp [placeAllGo]⟩
  | cons b bs ih =>
    intro acc
    cases hfp : findPlacement allowRotation b acc container seed with
    | none =>
      obtain ⟨s, hs1, hs2⟩ := ih acc
      refine ⟨s, ?_, ?_⟩
      · simp only [placeAllGo, hfp]
        exact hs1
      · exact hs2.cons b.id
    | some p =>
      obtain ⟨s, hs1, hs2⟩ := ih (acc ++ [p])
      refine ⟨[p] ++ s, ?_, ?_⟩
      · simp only [placeAllGo, hfp]
        rw [hs1, List.append_assoc]
      · have hid : p.id = b.id := (findPlacement_some hfp).2
        simp only [List.map_append, List.map_cons, List.map_nil]
        rw [List.singleton_append, hid]
        exact hs2.cons₂ b.id

/-- Claim C10: one packing attempt places each input box at most once:
the output is never longer than the input, its placements carry the
identifiers of a sublist of the sorted box order (each placement stems
from a distinct input box), and the sorted order is a permutation of
the input list (boxes that fail to place are merely skipped). -/
theorem attemptPacking_each_box_at_most_once (ctx : WorkerCtx)
    (boxes : List Box) (container : Container) (seed : ℕ) :
    (attemptPacking ctx boxes container seed).length ≤ boxes.length ∧
    List.Sublist ((attemptPacking ctx boxes container seed).map PlacedBox.id)
      ((sortedBoxes ctx.mcConfig ctx.noise seed boxes).map Box.id) ∧
    (sortedBoxes ctx.mcConfig ctx.noise seed boxes).Perm boxes := by
  obtain ⟨s, hs1, hs2⟩ := placeAllGo_ids ctx.allowRotation container seed
    (sortedBoxes ctx.mcConfig ctx.noise seed boxes) []
  have heq : attemptPacking ctx boxes container seed = s := by
    unfold attemptPacking
    rw [hs1, List.nil_append]
  have hperm := sortedBoxes_perm ctx.mcConfig ctx.noise seed boxes
  refine ⟨?_, ?_, hperm⟩
  · rw [heq]
    have h1 : s.length = (s.map PlacedBox.id).length := (List.length_map s _).symm
    have h2 := hs2.length_le
    rw [List.length_map, List.length_map] at h2
    calc s.length ≤ (sortedBoxes ctx.mcConfig ctx.noise seed boxes).length := h2
      _ = boxes.length := hperm.length_eq
  · rw [heq]
    exact hs2

/-! ## Geometric invariants of the returned results (C2, C3) -/

theorem placeAllGo_invariant (allowRotation : Bool) (container : Container)
    (seed : ℕ) :
    ∀ (l : List Box) (acc : List PlacedBox),
      PlacementInvariant container acc →
      PlacementInvariant container (placeAllGo allowRotation container seed l acc) := by
  intro l
  induction l with
  | nil =>
    intro acc h
    simpa [placeAllGo] using h
  | cons b bs ih =>
    intro acc h
    cases hfp : findPlacement allowRotation b acc container seed with
    | none =>
      simp only [placeAllGo, hfp]
      exact ih acc h
    | some p =>
      simp only [placeAllGo, hfp]
      apply ih
      obtain ⟨hvalid, _⟩ := findPlacement_some hfp
      obtain ⟨hwithin, hnocol⟩ := isValidPlacement_true hvalid
      obtain ⟨hpw, hin⟩ := h
      constructor
      · rw [List.pairwise_append]
        refine ⟨hpw, by simp, ?_⟩
        intro a ha b' hb'
        rw [List.mem_singleton] at hb'
        have h1 : checkCollision p a = false :=
          checkCollisionWithList_eq_false hnocol a ha
        rw [hb']
        exact ⟨by rw [checkCollision_comm]; exact h1, h1⟩
      · intro b' hb'
        rcases List.mem_append.mp hb' with h1 | h1
        · exact hin b' h1
        · rw [List.mem_singleton] at h1
          rw [h1]
          exact hwithin

theorem attemptPacking_invariant (ctx : WorkerCtx) (boxes : List Box)
    (container : Container) (seed : ℕ) :
    PlacementInvariant container (attemptPacking ctx boxes container seed) := by
  unfold attemptPacking
  exact placeAllGo_invariant ctx.allowRotation container seed _ []
    ⟨List.Pairwise.nil, by simp⟩

theorem finalLoop_invariant (ctx : WorkerCtx) (boxes : List Box)
    (container : Container) :
    ∀ (fuel i : ℕ) (best : List PlacedBox),
      PlacementInvariant container best →
      PlacementInvariant container (finalLoop ctx boxes container fuel i best) := by
  intro fuel
  induction fuel with
  | zero => intro i best h; exact h
  | succ fuel ih =>
    intro i best h
    simp only [finalLoop]
    split_ifs with h1 h2 h3
    · exact attemptPacking_invariant ctx boxes container i
    · exact ih (i + 1) _ (attemptPacking_invariant ctx boxes container i)
    · exact h
    · exact ih (i + 1) _ h

theorem expandLoop_invariant (ctx : WorkerCtx) (boxes : List Box)
    (uds : List Dim) :
    ∀ (fuel : ℕ) (c : Container) (placed : List PlacedBox),
      PlacementInvariant c placed →
      PlacementInvariant (expandLoop ctx boxes uds fuel c placed).1
        (expandLoop ctx boxes uds fuel c placed).2 := by
  intro fuel
  induction fuel with
  | zero => intro c placed h; exact h
  | succ fuel ih =>
    intro c placed h
    simp only [expandLoop]
    split_ifs with hlt
    · exact ih _ _ (attemptPacking_invariant ctx boxes _ 0)
    · exact h

theorem preRound_invariant (ctx : WorkerCtx) (boxes : List Box)
    (cs : Constraints) :
    PlacementInvariant (preRound ctx boxes cs).1 (preRound ctx boxes cs).2 := by
  simp only [preRound]
  split_ifs with h1 h2 h3
  all_goals first
    | exact expandLoop_invariant ctx boxes _ 20 _ _
        (finalLoop_invariant ctx boxes _ _ 0 [] ⟨List.Pairwise.nil, by simp⟩)
    | exact finalLoop_invariant ctx boxes _ _ 0 [] ⟨List.Pairwise.nil, by simp⟩

theorem roundDim_eq (v : ℚ) : roundDim v = (⌈v / (1/8)⌉ : ℚ) * (1/8) := by
  simp only [roundDim]
  have h1 : ((⌈v / (1/8)⌉ : ℤ) : ℚ) * (1/8) * 10000 =
      ((⌈v / (1/8)⌉ * 1250 : ℤ) : ℚ) := by
    push_cast
    ring
  rw [h1, round_intCast]
  push_cast
  ring

theorem roundDim_ge (v : ℚ) : v ≤ roundDim v := by
  rw [roundDim_eq]
  have hceil := Int.le_ceil (v / (1/8))
  have hv : v / (1/8) * (1/8) = v := by ring
  nlinarith [hceil]

theorem isWithinContainer_mono {b : PlacedBox} {c c' : Container}
    (h : isWithinContainer b c = true) (hw : c.width ≤ c'.width)
    (hh : c.height ≤ c'.height) (hd : c.depth ≤ c'.depth) :
    isWithinContainer b c' = true := by
  simp only [isWithinContainer, Bool.and_eq_true, decide_eq_true_eq] at h ⊢
  obtain ⟨⟨⟨⟨⟨h1, h2⟩, h3⟩, h4⟩, h5⟩, h6⟩ := h
  refine ⟨⟨⟨⟨⟨?_, ?_⟩, ?_⟩, ?_⟩, ?_⟩, ?_⟩ <;> linarith

/-- Claim C2: in every result returned by the engine the placed boxes
are pairwise non overlapping under the strict interior AABB overlap
test, in both argument orders (touching faces allowed). -/
theorem result_pairwise_no_overlap (ctx : WorkerCtx) (boxes : List Box)
    (cs : Constraints) (r : Container × List PlacedBox)
    (h : findMinimumContainer ctx boxes cs = some r) :
    r.2.Pairwise
      (fun a b => checkCollision a b = false ∧ checkCollision b a = false) := by
  have hinv := preRound_invariant ctx boxes cs
  simp only [findMinimumContainer] at h
  obtain rfl := Option.some.inj h
  exact hinv.1

/-- Witness for C2 at a concrete run: two unit cubes in a fully
constrained 2 x 1 x 1 container end up side by side and collision
free. -/
theorem result_pairwise_no_overlap_witness :
    ([⟨0, 1, 1, 1, -1/2, 1/2, 0⟩, ⟨1, 1, 1, 1, 1/2, 1/2, 0⟩] :
        List PlacedBox).Pairwise
      (fun a b => checkCollision a b = false ∧ checkCollision b a = false) :=
  result_pairwise_no_overlap ⟨⟨1, 1, false⟩, false, fun _ => 0⟩
    [⟨0, 1, 1, 1⟩, ⟨1, 1, 1, 1⟩] ⟨some 2, some 1, some 1⟩
    (⟨2, 1, 1⟩, [⟨0, 1, 1, 1, -1/2, 1/2, 0⟩, ⟨1, 1, 1, 1, 1/2, 1/2, 0⟩])
    (by with_unfolding_all decide)

/-- Claim C3: every placed box of a returned result lies within the
returned container, the post hoc rounded (ceil to 0.125, then the four
decimal drift fix) size: the placements were validated against the pre
rounding container and rounding never shrinks an axis. -/
theorem result_within_rounded_container (ctx : WorkerCtx) (boxes : List Box)
    (cs : Constraints) (r : Container × List PlacedBox)
    (h : findMinimumContainer ctx boxes cs = some r) :
    ∀ b ∈ r.2, isWithinContainer b r.1 = true := by
  have hinv := preRound_invariant ctx boxes cs
  simp only [findMinimumContainer] at h
  obtain rfl := Option.some.inj h
  intro b hb
  have hw := hinv.2 b hb
  exact isWithinContainer_mono hw (roundDim_ge _) (roundDim_ge _) (roundDim_ge _)

/-- Witness for C3 at the same concrete run: both returned placements
lie within the returned container. -/
theorem result_within_rounded_container_witness :
    isWithinContainer ⟨0, 1, 1, 1, -1/2, 1/2, 0⟩ ⟨2, 1, 1⟩ = true ∧
    isWithinContainer ⟨1, 1, 1, 1, 1/2, 1/2, 0⟩ ⟨2, 1, 1⟩ = true :=
  ⟨result_within_rounded_container ⟨⟨1, 1, false⟩, false, fun _ => 0⟩
      [⟨0, 1, 1, 1⟩, ⟨1, 1, 1, 1⟩] ⟨some 2, some 1, some 1⟩
      (⟨2, 1, 1⟩, [⟨0, 1, 1, 1, -1/2, 1/2, 0⟩, ⟨1, 1, 1, 1, 1/2, 1/2, 0⟩])
      (by with_unfolding_all decide) ⟨0, 1, 1, 1, -1/2, 1/2, 0⟩ (by simp),
   result_within_rounded_container ⟨⟨1, 1, false⟩, false, fun _ => 0⟩
      [⟨0, 1, 1, 1⟩, ⟨1, 1, 1, 1⟩] ⟨some 2, some 1, some 1⟩
      (⟨2, 1, 1⟩, [⟨0, 1, 1, 1, -1/2, 1/2, 0⟩, ⟨1, 1, 1, 1, 1/2, 1/2, 0⟩])
      (by with_unfolding_all decide) ⟨1, 1, 1, 1, 1/2, 1/2, 0⟩ (by simp)⟩

end Pack3d
